import Mathlib

/-!
# Verification of the texttemplate bundle scripts

Shallow embedding of `src/Support/bin/ttinsert.py` and
`src/Support/bin/templates_root.py`.

Modelling conventions:
* Python strings are `List Char` (`Str` below); `String.data` converts literals.
* The config dotfile (`~/.texttemplate_config`) is a state of type `Option Str`:
  `none` when the file does not exist, `some c` when it exists with contents `c`.
  File reads are modelled as succeeding; a refined model with unreadable files
  (`ConfigFile`, for the error-handling claim about `get_templates_root`) appears
  further down.
* The target file is modelled as its ordered sequence of lines, the list that
  `f.readlines()` returns and `f.writelines(lines)` writes back.
* External collaborators (the swift pickers, `os.path.isdir`, `os.path.isfile`,
  reading a selected file, `int()` parsing of the line-number variable) are
  oracles carried in a `World` record, since their behaviour is an input of the
  run, not logic of this repository.
-/

abbrev Str := List Char

/-- Decides whether `p` is a prefix of `s`; the comparison `str.startswith`
or slice equality that underlies pattern matching on character lists. -/
def startsWithL : Str → Str → Bool
  | [], _ => true
  | _ :: _, [] => false
  | p :: ps, s :: ss => p == s && startsWithL ps ss

/-- Decides whether `pat` occurs as a contiguous substring of the second list,
the way the `in`/`str.replace` machinery scans a Python string. -/
def occursIn (pat : Str) : Str → Bool
  | [] => pat.isEmpty
  | c :: cs => startsWithL pat (c :: cs) || occursIn pat cs

/-- The whitespace set of Python `str.strip()` (space, tab, newline, carriage
return, vertical tab, form feed). -/
def isSpaceChar (c : Char) : Bool :=
  c == ' ' || c == '\t' || c == '\n' || c == '\r' || c == Char.ofNat 11 || c == Char.ofNat 12

/-- Removes trailing whitespace, the right half of Python `str.strip()`. -/
def dropTrailingSpace (s : Str) : Str :=
  (s.reverse.dropWhile isSpaceChar).reverse

/-- Python `str.strip()`: leading and trailing whitespace removed. -/
def stripList (s : Str) : Str :=
  dropTrailingSpace (s.dropWhile isSpaceChar)

/-- Python truthiness of an optional string: `None` and the empty string are
falsy, every other string is truthy (`if not x:` in the scripts). -/
def truthyOpt : Option Str → Bool
  | none => false
  | some s => !s.isEmpty

/-- Python `list.insert idx x`: inserts before position `idx`, appending when
`idx` is at or beyond the end of the list (`lines.insert(idx, text)` in
`insert_text_at_line`). -/
def list_insert (idx : Nat) (x : α) : List α → List α
  | [] => [x]
  | c :: cs =>
    match idx with
    | 0 => x :: c :: cs
    | n + 1 => c :: list_insert n x cs

/-- Fuelled worker for `replaceAll`.  The fuel only funds the recursion (one
unit per character of the remaining input); `replaceAll` hands it exactly the
input length, which the lemmas below show is always enough. -/
def replaceAllF (pat repl : Str) : Nat → Str → Str
  | _, [] => []
  | 0, s => s
  | fuel + 1, c :: cs =>
    if startsWithL pat (c :: cs) && !pat.isEmpty then
      repl ++ replaceAllF pat repl fuel ((c :: cs).drop pat.length)
    else
      c :: replaceAllF pat repl fuel cs

/-- Python `s.replace(pat, repl)` for a non-empty needle: scans left to right,
replaces each non-overlapping occurrence, and resumes after the replacement
text.  (Python treats an empty needle specially; the script only ever passes
the two fixed non-empty tokens.) -/
def replaceAll (pat repl s : Str) : Str :=
  replaceAllF pat repl s.length s

/-- The literal token `[[TO=firstname]]` from `replace_tags`. -/
def firstnameTok : Str := "[[TO=firstname]]".data

/-- The literal token `[[TO=fullname]]` from `replace_tags`. -/
def fullnameTok : Str := "[[TO=fullname]]".data

/-- Embeds `replace_tags` (ttinsert.py lines 127-132): first every occurrence
of `[[TO=firstname]]` is replaced by the value of `MM_TO_NAME_FIRST`, then
every occurrence of `[[TO=fullname]]` in the resulting string is replaced by
the value of `MM_TO_NAME`.  The two environment values are the arguments
`first` and `full` (the caller passes the empty string for an unset one). -/
def replace_tags (first full text : Str) : Str :=
  replaceAll fullnameTok full (replaceAll firstnameTok first text)

/-- Embeds `get_templates_root` (identical in both scripts): when the config
file exists, its contents are read and stripped; a non-empty result is
returned, otherwise `None`. -/
def get_templates_root (config : Option Str) : Option Str :=
  match config with
  | none => none
  | some contents =>
    let path := stripList contents
    if path.isEmpty then none else some path

/-- Embeds `update_templates_root`: overwrites the config file with the
stripped path followed by a newline.  The previous state is discarded. -/
def update_templates_root (path : Str) (_config : Option Str) : Option Str :=
  some (stripList path ++ ['\n'])

/-- Embeds `prompt_for_templates_root` (ttinsert.py lines 30-39; the copy in
templates_root.py lines 30-42 differs only in the default directory handed to
the picker, which is absorbed into the picker oracle).  `pick` is the
collaborator outcome (returncode, stdout); on returncode 0 the stripped stdout
is tested with `os.path.isdir` and, when it is a directory, persisted and
returned.  Returns the selected directory (or `none`) and the new config
state. -/
def prompt_for_templates_root (pick : Int × Str) (isdir : Str → Bool)
    (config : Option Str) : Option Str × Option Str :=
  if pick.1 = 0 then
    let selected := stripList pick.2
    if isdir selected then (some selected, update_templates_root selected config)
    else (none, config)
  else (none, config)

/-- Embeds `insert_text_at_line` (ttinsert.py lines 42-55).  The file is its
line list (`readlines`/`writelines`); `line_number` is the value of
`int(line_number)`, so an `Int`; the insertion index is `max(0, n - 1)`. -/
def insert_text_at_line (lines : List Str) (line_number : Int) (text : Str) : List Str :=
  list_insert (max 0 (line_number - 1)).toNat text lines

section Toolkit

/-- Characterisation of `startsWithL` as an append decomposition. -/
theorem startsWithL_iff : ∀ p s : Str, startsWithL p s = true ↔ ∃ t, s = p ++ t
  | [], s => by simp [startsWithL]
  | c :: ps, [] => by simp [startsWithL]
  | c :: ps, d :: ss => by
    simp only [startsWithL, Bool.and_eq_true, beq_iff_eq, List.cons_append]
    constructor
    · rintro ⟨rfl, h⟩
      obtain ⟨t, rfl⟩ := (startsWithL_iff ps ss).1 h
      exact ⟨t, rfl⟩
    · rintro ⟨t, h⟩
      obtain ⟨rfl, h2⟩ := List.cons.inj h
      exact ⟨rfl, (startsWithL_iff ps ss).2 ⟨t, h2⟩⟩

theorem startsWithL_self_append (p t : Str) : startsWithL p (p ++ t) = true :=
  (startsWithL_iff p (p ++ t)).2 ⟨t, rfl⟩

theorem length_le_of_startsWithL {p s : Str} (h : startsWithL p s = true) :
    p.length ≤ s.length := by
  obtain ⟨t, rfl⟩ := (startsWithL_iff p s).1 h
  simp

/-- A match against an extended list restricts to a match of the short side:
if `p` starts `a ++ r` and `a` is no longer than `p`, then `a` starts `p`. -/
theorem startsWithL_short {p a r : Str} (h : startsWithL p (a ++ r) = true)
    (hl : a.length ≤ p.length) : startsWithL a p = true := by
  obtain ⟨t, ht⟩ := (startsWithL_iff p (a ++ r)).1 h
  apply (startsWithL_iff a p).2
  refine ⟨p.drop a.length, ?_⟩
  have h1 : (a ++ r).take a.length = a := List.take_left a r
  have h2 : (p ++ t).take a.length = p.take a.length := List.take_append_of_le_length hl
  rw [ht] at h1
  rw [h2] at h1
  conv_lhs => rw [← List.take_append_drop a.length p, h1]

/-- A match against an extended list restricts to the long side: if `p` starts
`a ++ r` and `p` is no longer than `a`, then `p` starts `a`. -/
theorem startsWithL_long {p a r : Str} (h : startsWithL p (a ++ r) = true)
    (hl : p.length ≤ a.length) : startsWithL p a = true := by
  obtain ⟨t, ht⟩ := (startsWithL_iff p (a ++ r)).1 h
  apply (startsWithL_iff p a).2
  refine ⟨a.drop p.length, ?_⟩
  have h2 : a.take p.length = p := by
    have e1 : (a ++ r).take p.length = a.take p.length := List.take_append_of_le_length hl
    rw [ht, List.take_left] at e1
    exact e1.symm
  conv_lhs => rw [← List.take_append_drop p.length a, h2]

/-- Characterisation of `occursIn` as a two-sided append decomposition. -/
theorem occursIn_iff : ∀ pat s : Str, occursIn pat s = true ↔ ∃ a b, s = a ++ pat ++ b
  | pat, [] => by
    simp only [occursIn, List.isEmpty_iff]
    constructor
    · rintro rfl; exact ⟨[], [], rfl⟩
    · rintro ⟨a, b, h⟩
      rcases List.append_eq_nil.1 h.symm with ⟨h1, h2⟩
      exact (List.append_eq_nil.1 h1).2
  | pat, c :: cs => by
    simp only [occursIn, Bool.or_eq_true]
    constructor
    · rintro (h | h)
      · obtain ⟨t, ht⟩ := (startsWithL_iff pat (c :: cs)).1 h
        exact ⟨[], t, by simpa using ht⟩
      · obtain ⟨a, b, hb⟩ := (occursIn_iff pat cs).1 h
        exact ⟨c :: a, b, by simp [hb]⟩
    · rintro ⟨a, b, hb⟩
      cases a with
      | nil =>
        left
        exact (startsWithL_iff pat (c :: cs)).2 ⟨b, by simpa using hb⟩
      | cons a0 as =>
        right
        apply (occursIn_iff pat cs).2
        refine ⟨as, b, ?_⟩
        simpa using (List.cons.inj hb).2

/-- An occurrence inside a dropped suffix is an occurrence in the whole list. -/
theorem occursIn_of_drop {pat s : Str} {i : Nat}
    (h : startsWithL pat (s.drop i) = true) : occursIn pat s = true := by
  obtain ⟨t, ht⟩ := (startsWithL_iff pat (s.drop i)).1 h
  apply (occursIn_iff pat s).2
  refine ⟨s.take i, t, ?_⟩
  conv_lhs => rw [← List.take_append_drop i s]
  rw [ht, List.append_assoc]

/-- The fuel of `replaceAllF` is irrelevant once it covers the input length. -/
theorem replaceAllF_fuel (pat repl : Str) :
    ∀ f1 : Nat, ∀ f2 s, s.length ≤ f1 → s.length ≤ f2 →
      replaceAllF pat repl f1 s = replaceAllF pat repl f2 s := by
  intro f1
  induction f1 with
  | zero =>
    intro f2 s h1 _
    have : s = [] := List.eq_nil_of_length_eq_zero (Nat.le_zero.1 h1)
    subst this
    cases f2 <;> rfl
  | succ f ih =>
    intro f2 s h1 h2
    cases s with
    | nil => cases f2 <;> rfl
    | cons c cs =>
      cases f2 with
      | zero => simp at h2
      | succ f2p =>
        simp only [replaceAllF]
        by_cases hm : (startsWithL pat (c :: cs) && !pat.isEmpty) = true
        · rw [if_pos hm, if_pos hm]
          have hpat : 1 ≤ pat.length := by
            rw [Bool.and_eq_true] at hm
            cases pat with
            | nil => simp at hm
            | cons _ _ => simp
          have hlen : ((c :: cs).drop pat.length).length ≤ f := by
            simp only [List.length_drop, List.length_cons]
            simp only [List.length_cons] at h1
            omega
          have hlen2 : ((c :: cs).drop pat.length).length ≤ f2p := by
            simp only [List.length_drop, List.length_cons]
            simp only [List.length_cons] at h2
            omega
          rw [ih f2p _ hlen hlen2]
        · rw [if_neg hm, if_neg hm]
          have hlen : cs.length ≤ f := by
            simp only [List.length_cons] at h1; omega
          have hlen2 : cs.length ≤ f2p := by
            simp only [List.length_cons] at h2; omega
          rw [ih f2p _ hlen hlen2]

@[simp] theorem replaceAll_nil (pat repl : Str) : replaceAll pat repl [] = [] := rfl

/-- Unfolding `replaceAll` at a non-matching head character. -/
theorem replaceAll_nomatch {pat : Str} (repl : Str) {c : Char} {cs : Str}
    (h : startsWithL pat (c :: cs) = false) :
    replaceAll pat repl (c :: cs) = c :: replaceAll pat repl cs := by
  show replaceAllF pat repl (c :: cs).length (c :: cs) = _
  simp only [List.length_cons, replaceAllF, h, Bool.false_and, if_neg (Bool.false_ne_true)]
  rfl

/-- Unfolding `replaceAll` at a matching position: the replacement is emitted
and scanning resumes after the matched token. -/
theorem replaceAll_match {pat : Str} (repl : Str) {s : Str}
    (hne : pat ≠ []) (h : startsWithL pat s = true) :
    replaceAll pat repl s = repl ++ replaceAll pat repl (s.drop pat.length) := by
  cases s with
  | nil =>
    obtain ⟨t, ht⟩ := (startsWithL_iff pat []).1 h
    rcases List.append_eq_nil.1 ht.symm with ⟨h1, _⟩
    exact absurd h1 hne
  | cons c cs =>
    have hpe : pat.isEmpty = false := by
      cases pat with
      | nil => exact absurd rfl hne
      | cons _ _ => rfl
    show replaceAllF pat repl (c :: cs).length (c :: cs) = _
    simp only [List.length_cons, replaceAllF, h, hpe, Bool.not_false, Bool.and_self,
      if_pos]
    congr 1
    apply replaceAllF_fuel
    · have hp1 : 1 ≤ pat.length := by
        cases pat with
        | nil => exact absurd rfl hne
        | cons _ _ => simp
      simp only [List.length_drop, List.length_cons]
      omega
    · exact Nat.le_refl _

/-- Text without any occurrence of the needle passes through unchanged. -/
theorem replaceAll_no_occ {pat : Str} (repl : Str) :
    ∀ {s : Str}, occursIn pat s = false → replaceAll pat repl s = s := by
  intro s
  induction s with
  | nil => intro _; rfl
  | cons c cs ih =>
    intro h
    simp only [occursIn, Bool.or_eq_false_iff] at h
    rw [replaceAll_nomatch repl h.1, ih h.2]

/-- Scanning distributes over an initial segment in which no match starts. -/
theorem replaceAll_append_clean (pat repl : Str) :
    ∀ a R : Str, (∀ i, i < a.length → startsWithL pat (a.drop i ++ R) = false) →
      replaceAll pat repl (a ++ R) = a ++ replaceAll pat repl R := by
  intro a
  induction a with
  | nil => intro R _; simp
  | cons c a2 ih =>
    intro R h
    have h0 : startsWithL pat (c :: (a2 ++ R)) = false := by
      have := h 0 (by simp)
      simpa using this
    have : replaceAll pat repl ((c :: a2) ++ R) = c :: replaceAll pat repl (a2 ++ R) := by
      simpa using replaceAll_nomatch repl h0
    rw [this, ih R fun i hi => by simpa using h (i + 1) (by simpa using Nat.succ_lt_succ hi)]
    rfl

end Toolkit

section StripToolkit

/-- The head surviving a `dropWhile` fails the predicate (or nothing survives). -/
theorem dropWhile_head_not (p : Char → Bool) :
    ∀ l : Str, l.dropWhile p = [] ∨ ∃ c cs, l.dropWhile p = c :: cs ∧ p c = false := by
  intro l
  induction l with
  | nil => left; rfl
  | cons c cs ih =>
    by_cases h : p c = true
    · rw [List.dropWhile_cons, if_pos h]; exact ih
    · right
      refine ⟨c, cs, ?_, by simpa using h⟩
      rw [List.dropWhile_cons, if_neg h]

/-- A `dropWhile` result is a suffix of the input. -/
theorem dropWhile_suffix_decomp (p : Char → Bool) :
    ∀ l : Str, ∃ u, l = u ++ l.dropWhile p := by
  intro l
  induction l with
  | nil => exact ⟨[], rfl⟩
  | cons c cs ih =>
    by_cases h : p c = true
    · obtain ⟨u, hu⟩ := ih
      refine ⟨c :: u, ?_⟩
      rw [List.dropWhile_cons, if_pos h]
      conv_lhs => rw [hu]
      rfl
    · refine ⟨[], ?_⟩
      rw [List.dropWhile_cons, if_neg h]
      rfl

/-- The stripped string is an initial segment of the left-stripped string. -/
theorem stripList_decomp (s : Str) :
    ∃ u, s.dropWhile isSpaceChar = stripList s ++ u := by
  obtain ⟨u, hu⟩ := dropWhile_suffix_decomp isSpaceChar (s.dropWhile isSpaceChar).reverse
  refine ⟨u.reverse, ?_⟩
  calc s.dropWhile isSpaceChar
      = (s.dropWhile isSpaceChar).reverse.reverse := (List.reverse_reverse _).symm
    _ = (u ++ ((s.dropWhile isSpaceChar).reverse.dropWhile isSpaceChar)).reverse := by
        rw [← hu]
    _ = stripList s ++ u.reverse := by rw [List.reverse_append]; rfl

/-- A non-empty stripped string starts with a non-whitespace character. -/
theorem stripList_head_not_space (s : Str) :
    stripList s = [] ∨ ∃ c b2, stripList s = c :: b2 ∧ isSpaceChar c = false := by
  cases hsl : stripList s with
  | nil => left; rfl
  | cons c b2 =>
    right
    refine ⟨c, b2, rfl, ?_⟩
    obtain ⟨u, hu⟩ := stripList_decomp s
    rw [hsl] at hu
    rcases dropWhile_head_not isSpaceChar s with h1 | ⟨d, ds, hd, hdf⟩
    · rw [h1] at hu
      exact absurd hu (by simp)
    · rw [hd] at hu
      obtain ⟨h2, _⟩ := List.cons.inj hu
      rwa [h2] at hdf

/-- A stripped string has no removable trailing whitespace. -/
theorem stripList_reverse_clean (s : Str) :
    (stripList s).reverse.dropWhile isSpaceChar = (stripList s).reverse := by
  have h : (stripList s).reverse = (s.dropWhile isSpaceChar).reverse.dropWhile isSpaceChar :=
    List.reverse_reverse _
  rw [h, List.dropWhile_idempotent]

/-- Right-stripping after appending a newline to a head-clean, tail-clean
string recovers the string. -/
theorem rstrip_newline_of_clean (b : Str)
    (hhead : b = [] ∨ ∃ c b2, b = c :: b2 ∧ isSpaceChar c = false)
    (hidem : b.reverse.dropWhile isSpaceChar = b.reverse) :
    (((b ++ ['\n']).dropWhile isSpaceChar).reverse.dropWhile isSpaceChar).reverse = b := by
  rcases hhead with hb | ⟨c, b2, hb, hc⟩
  · subst hb; decide
  · have h1 : (b ++ ['\n']).dropWhile isSpaceChar = b ++ ['\n'] := by
      rw [hb]
      show ((c :: (b2 ++ ['\n'])).dropWhile isSpaceChar) = _
      rw [List.dropWhile_cons, if_neg (by simp [hc])]
      rfl
    rw [h1, List.reverse_append]
    simp only [List.reverse_cons, List.reverse_nil, List.nil_append, List.singleton_append]
    rw [List.dropWhile_cons, if_pos (by decide), hidem, List.reverse_reverse]

/-- Stripping what `update_templates_root` wrote recovers the stripped path:
the contents are the stripped path plus one trailing newline, and
`str.strip()` undoes exactly that newline. -/
theorem stripList_append_newline (s : Str) :
    stripList (stripList s ++ ['\n']) = stripList s := by
  show (((stripList s ++ ['\n']).dropWhile isSpaceChar).reverse.dropWhile
    isSpaceChar).reverse = stripList s
  exact rstrip_newline_of_clean (stripList s) (stripList_head_not_space s)
    (stripList_reverse_clean s)

end StripToolkit

section InsertToolkit

/-- Python `list.insert` as a take/append/drop splice; since `take` and `drop`
clamp at the length, this single equation also covers the index-beyond-end
(append) behaviour. -/
theorem list_insert_eq (x : α) : ∀ (n : Nat) (l : List α),
    list_insert n x l = l.take n ++ x :: l.drop n := by
  intro n l
  induction l generalizing n with
  | nil => cases n <;> simp [list_insert]
  | cons c cs ih =>
    cases n with
    | zero => simp [list_insert]
    | succ m => simp [list_insert, ih m]

/-- Inserting always grows the list by exactly one element. -/
theorem length_list_insert (x : α) (n : Nat) (l : List α) :
    (list_insert n x l).length = l.length + 1 := by
  rw [list_insert_eq]
  simp only [List.length_append, List.length_take, List.length_cons, List.length_drop]
  omega

/-- When the splice point is inside the list, the new element sits at that
position. -/
theorem get?_splice (x : α) : ∀ (n : Nat) (l : List α), n ≤ l.length →
    (l.take n ++ x :: l.drop n).get? n = some x := by
  intro n
  induction n with
  | zero => intro l _; simp
  | succ m ih =>
    intro l hl
    cases l with
    | nil => simp at hl
    | cons c cs =>
      have : ((c :: cs).take (m + 1) ++ x :: (c :: cs).drop (m + 1)) =
          c :: (cs.take m ++ x :: cs.drop m) := by simp
      rw [this]
      exact ih cs (by simpa using hl)

end InsertToolkit


/-- Config file state for the refined read model: the dotfile is absent, or it
exists with given contents and is or is not readable by the process. -/
inductive ConfigFile where
  | absent
  | file (readable : Bool) (contents : Str)

/-- Embeds `get_templates_root` against the refined file model.  The code
checks `os.path.isfile` (false for an absent file, giving `None`), then opens
and reads with no exception handler: a readable file is stripped and the
truthiness check applied, while an unreadable existing file makes `open`
raise, and the exception propagates out of the function, modelled as
`Except.error`. -/
def get_templates_root_fs : ConfigFile → Except Unit (Option Str)
  | ConfigFile.absent => Except.ok none
  | ConfigFile.file readable contents =>
    if readable then
      let path := stripList contents
      Except.ok (if path.isEmpty then none else some path)
    else Except.error ()

/-- On states where reading succeeds, the refined model agrees with the
`Option`-state model used by the orchestration. -/
theorem get_templates_root_fs_agrees :
    (get_templates_root_fs ConfigFile.absent = Except.ok (get_templates_root none)) ∧
    (∀ c : Str, get_templates_root_fs (ConfigFile.file true c) =
      Except.ok (get_templates_root (some c))) := by
  exact ⟨rfl, fun c => rfl⟩

/-- C4: the round trip as claimed, "setRoot(p) then getRoot() returns
p.trim() (not absent) for any non-empty p", fails on a whitespace-only path:
the store then reads back as absent, not as the (empty) trimmed path. -/
theorem c4_roundtrip_counterexample :
    ([' '] : Str) ≠ [] ∧
    get_templates_root (update_templates_root [' '] none) = none ∧
    get_templates_root (update_templates_root [' '] none) ≠ some (stripList [' ']) := by
  refine ⟨by decide, by decide, by decide⟩

/-- C4 (amended): for any path whose trimmed form is non-empty, writing it
with `update_templates_root` and reading with `get_templates_root` returns
exactly the trimmed path; a whitespace-only path reads back as absent. -/
theorem c4_roundtrip_trimmed :
    ∀ (p : Str) (st : Option Str), stripList p ≠ [] →
      get_templates_root (update_templates_root p st) = some (stripList p) := by
  intro p st hne
  show get_templates_root (some (stripList p ++ ['\n'])) = _
  simp only [get_templates_root, stripList_append_newline]
  rw [if_neg (by simpa [List.isEmpty_iff] using hne)]

/-- C4 witness: the round trip at the concrete path " /tmp/templates ". -/
theorem c4_roundtrip_witness :
    get_templates_root (update_templates_root " /tmp/templates ".data none) =
      some (stripList " /tmp/templates ".data) :=
  c4_roundtrip_trimmed " /tmp/templates ".data none (by decide)

/-- C7: the claim that getRoot never fails and treats read errors as absent is
false: an existing config file the process cannot read makes the unguarded
`open` raise, which propagates instead of yielding absent. -/
theorem c7_never_fails_counterexample :
    get_templates_root_fs (ConfigFile.file false ['x']) = Except.error () ∧
    (Except.error () : Except Unit (Option Str)) ≠ Except.ok none := by
  exact ⟨rfl, fun h => Except.noConfusion h⟩

/-- C7 (amended): getRoot returns the trimmed contents when the dotfile exists,
is readable and strips to non-empty; returns absent when the file is missing or
strips to empty; and an unreadable existing file raises, the error propagating
uncaught rather than being treated as absent. -/
theorem c7_get_root_characterisation :
    (get_templates_root_fs ConfigFile.absent = Except.ok none) ∧
    (∀ c : Str, stripList c = [] →
      get_templates_root_fs (ConfigFile.file true c) = Except.ok none) ∧
    (∀ c : Str, stripList c ≠ [] →
      get_templates_root_fs (ConfigFile.file true c) = Except.ok (some (stripList c))) ∧
    (∀ c : Str, get_templates_root_fs (ConfigFile.file false c) = Except.error ()) := by
  refine ⟨rfl, fun c hc => ?_, fun c hc => ?_, fun c => rfl⟩
  · show Except.ok (if (stripList c).isEmpty then none else some (stripList c)) =
      Except.ok none
    rw [hc]
    rfl
  · show Except.ok (if (stripList c).isEmpty then none else some (stripList c)) =
      Except.ok (some (stripList c))
    rw [if_neg (by simpa [List.isEmpty_iff] using hc)]

/-- C7 witness: the characterisation applied to a readable dotfile holding
a padded path, and to an empty-contents dotfile. -/
theorem c7_get_root_witness :
    get_templates_root_fs (ConfigFile.file true " /r ".data) =
      Except.ok (some (stripList " /r ".data)) ∧
    get_templates_root_fs (ConfigFile.file true "\n".data) = Except.ok none :=
  ⟨c7_get_root_characterisation.2.2.1 " /r ".data (by decide),
   c7_get_root_characterisation.2.1 "\n".data (by decide)⟩

/-- C8: substitution fixes any text in which neither recognised token occurs,
whatever the two environment values are. -/
theorem c8_no_token_fixed :
    ∀ (text first full : Str),
      occursIn firstnameTok text = false → occursIn fullnameTok text = false →
      replace_tags first full text = text := by
  intro text first full h1 h2
  unfold replace_tags
  rw [replaceAll_no_occ first h1, replaceAll_no_occ full h2]

/-- C8 witness: an unrecognised bracketed tag passes through unchanged. -/
theorem c8_no_token_witness :
    replace_tags ['A'] ['B'] "hello [[TO=nickname]] ]]".data =
      "hello [[TO=nickname]] ]]".data :=
  c8_no_token_fixed "hello [[TO=nickname]] ]]".data ['A'] ['B'] (by decide) (by decide)

/-- C2: taken over every line number, the claim that the new text lands at
zero-based index max(0, lineNumber-1) fails once that index passes the end of
the file: inserting at line 3 of an empty file puts the text at index 0, and
index 2 of the one-element result does not exist. -/
theorem c2_insert_at_index_counterexample :
    insert_text_at_line ([] : List Str) 3 ['x'] = [['x']] ∧
    (insert_text_at_line ([] : List Str) 3 ['x']).get? ((max 0 ((3 : Int) - 1)).toNat) ≠
      some ['x'] := by
  refine ⟨by decide, by decide⟩

/-- C2 (amended): insertion always yields length+1 and splices the new text
between the first min(idx, len) lines and the rest, where
idx = max(0, lineNumber-1); whenever idx is at most the number of existing
lines the new text sits exactly at index idx, and any lineNumber at most 1
puts it at the very start. -/
theorem c2_insert_characterisation :
    ∀ (ln : Int) (lines : List Str) (text : Str),
      (insert_text_at_line lines ln text).length = lines.length + 1 ∧
      insert_text_at_line lines ln text =
        lines.take (max 0 (ln - 1)).toNat ++ text :: lines.drop (max 0 (ln - 1)).toNat ∧
      ((max 0 (ln - 1)).toNat ≤ lines.length →
        (insert_text_at_line lines ln text).get? (max 0 (ln - 1)).toNat = some text) ∧
      (ln ≤ 1 → insert_text_at_line lines ln text = text :: lines) := by
  intro ln lines text
  refine ⟨length_list_insert text _ lines, list_insert_eq text _ lines, fun h => ?_, fun h => ?_⟩
  · rw [insert_text_at_line, list_insert_eq]
    exact get?_splice text _ lines h
  · have hm : max 0 (ln - 1) = 0 := max_eq_left (by omega)
    rw [insert_text_at_line, hm]
    cases lines <;> rfl

/-- C2 witness: inserting at line 2 of a two-line file lands at index 1, and
inserting at line 0 lands at the start. -/
theorem c2_insert_witness :
    (insert_text_at_line [['a'], ['b']] 2 ['x']).get? ((max 0 ((2 : Int) - 1)).toNat) =
      some ['x'] ∧
    insert_text_at_line [['a'], ['b']] 0 ['x'] = ['x'] :: [['a'], ['b']] :=
  ⟨(c2_insert_characterisation 2 [['a'], ['b']] ['x']).2.2.1 (by decide),
   (c2_insert_characterisation 0 [['a'], ['b']] ['x']).2.2.2 (by decide)⟩

/-- C10: a line number beyond the end of the file (or any line number against
an empty file) does not fail; the text is appended after all original lines. -/
theorem c10_insert_beyond_end :
    ∀ (ln : Int) (lines : List Str) (text : Str),
      ((lines.length : Int) < ln ∨ lines = []) →
      insert_text_at_line lines ln text = lines ++ [text] := by
  intro ln lines text h
  rcases h with h | h
  · have h2 : max 0 (ln - 1) = ln - 1 := max_eq_right (by omega)
    have h3 : lines.length ≤ (ln - 1).toNat := by omega
    rw [insert_text_at_line, h2, list_insert_eq,
      List.take_of_length_le h3, List.drop_eq_nil_of_le h3]
  · subst h
    rw [insert_text_at_line, list_insert_eq]
    simp

/-- C10 witness: line 7 of a one-line file appends, as does line -2 of an
empty file. -/
theorem c10_insert_beyond_end_witness :
    insert_text_at_line [['a']] 7 ['x'] = [['a']] ++ [['x']] ∧
    insert_text_at_line ([] : List Str) (-2) ['x'] = [] ++ [['x']] :=
  ⟨c10_insert_beyond_end 7 [['a']] ['x'] (Or.inl (by decide)),
   c10_insert_beyond_end (-2) [] ['x'] (Or.inr rfl)⟩

/-- Outcome of the template-picker subprocess invocation inside the
`try` of `get_template`: a completed run (returncode, stdout), or an
exception raised anywhere in the guarded block. -/
inductive RunResult where
  | ok (returncode : Int) (stdout : Str)
  | exn
deriving DecidableEq

/-- Embeds `get_template` (ttinsert.py lines 103-125).  On returncode 0 the
stripped stdout is the selected path; when `os.path.isfile` accepts it, the
file contents are returned.  A non-zero returncode, a non-file selection, or
any exception in the `try` block yields `None`. -/
def get_template (run : RunResult) (isfile : Str → Bool) (readFile : Str → Str) : Option Str :=
  match run with
  | RunResult.exn => none
  | RunResult.ok rc out =>
    if rc = 0 then
      if isfile (stripList out) then some (readFile (stripList out)) else none
    else none

/-- One invocation of the scripts: environment variables, the config dotfile
state, the target file as its line list, and the external collaborator
oracles (picker subprocess outcomes, `os.path.isdir`, `os.path.isfile`,
reading the selected template file, `int()` parsing). -/
structure World where
  env_line_number : Option Str
  env_filepath : Option Str
  env_first : Option Str
  env_full : Option Str
  config : Option Str
  target : List Str
  rootPick : Int × Str
  templPick : RunResult
  isdir : Str → Bool
  isfile : Str → Bool
  readFile : Str → Str
  int_of : Str → Int

/-- Observable outcome of a run of the `__main__` block: process exit code
(1 for the uncaught `ValueError`, 0 otherwise), final config state, final
target file lines, and whether the error dialog was displayed. -/
structure MainResult where
  exitCode : Nat
  config : Option Str
  target : List Str
  dialogShown : Bool
deriving DecidableEq

/-- Embeds lines 141-143 of ttinsert.py: take the configured root when its
truthiness check passes, otherwise prompt (which may persist).  Returns the
resolved root together with the config state after resolution. -/
def resolve_root (w : World) : Option Str × Option Str :=
  if truthyOpt (get_templates_root w.config) then (get_templates_root w.config, w.config)
  else prompt_for_templates_root w.rootPick w.isdir w.config

/-- Embeds the `__main__` block of ttinsert.py (lines 134-153).  Missing or
empty required environment variables raise `ValueError` (exit 1, nothing
touched); otherwise the root is resolved, and with a truthy root the template
picker runs: contents are tag-substituted and inserted, no contents leaves the
target alone; without a root the error dialog is shown.  `resolve_root` is
pure, so mentioning it several times equals the single assignment in the
script. -/
def mainEntry (w : World) : MainResult :=
  if !truthyOpt w.env_line_number || !truthyOpt w.env_filepath then
    { exitCode := 1, config := w.config, target := w.target, dialogShown := false }
  else if truthyOpt (resolve_root w).1 then
    match get_template w.templPick w.isfile w.readFile with
    | some contents =>
      { exitCode := 0, config := (resolve_root w).2,
        target := insert_text_at_line w.target (w.int_of (w.env_line_number.getD []))
          (replace_tags (w.env_first.getD []) (w.env_full.getD []) contents),
        dialogShown := false }
    | none =>
      { exitCode := 0, config := (resolve_root w).2, target := w.target, dialogShown := false }
  else
    { exitCode := 0, config := (resolve_root w).2, target := w.target, dialogShown := true }

section MainLemmas

theorem main_env_error (w : World)
    (he : (!truthyOpt w.env_line_number || !truthyOpt w.env_filepath) = true) :
    mainEntry w = { exitCode := 1, config := w.config, target := w.target, dialogShown := false } := by
  unfold mainEntry
  rw [he]
  rfl

theorem main_no_template (w : World)
    (he : (!truthyOpt w.env_line_number || !truthyOpt w.env_filepath) = false)
    (hroot : truthyOpt (resolve_root w).1 = true)
    (hg : get_template w.templPick w.isfile w.readFile = none) :
    mainEntry w =
      { exitCode := 0, config := (resolve_root w).2, target := w.target,
        dialogShown := false } := by
  unfold mainEntry
  rw [he, hroot, hg]
  rfl

theorem main_inserts (w : World) (contents : Str)
    (he : (!truthyOpt w.env_line_number || !truthyOpt w.env_filepath) = false)
    (hroot : truthyOpt (resolve_root w).1 = true)
    (hg : get_template w.templPick w.isfile w.readFile = some contents) :
    mainEntry w =
      { exitCode := 0, config := (resolve_root w).2,
        target := insert_text_at_line w.target (w.int_of (w.env_line_number.getD []))
          (replace_tags (w.env_first.getD []) (w.env_full.getD []) contents),
        dialogShown := false } := by
  unfold mainEntry
  rw [he, hroot, hg]
  rfl

theorem main_config_after (w : World)
    (he : (!truthyOpt w.env_line_number || !truthyOpt w.env_filepath) = false) :
    (mainEntry w).config = (resolve_root w).2 := by
  unfold mainEntry
  rw [he]
  cases hg : get_template w.templPick w.isfile w.readFile <;>
    by_cases hr : truthyOpt (resolve_root w).1 = true <;>
      simp [hg, hr]

end MainLemmas

/-- C5: a missing required environment variable makes the run fail fast with a
non-zero exit, with neither the target file nor the config file modified. -/
theorem c5_missing_env_fails_fast :
    ∀ w : World, (w.env_line_number = none ∨ w.env_filepath = none) →
      (mainEntry w).exitCode ≠ 0 ∧ (mainEntry w).config = w.config ∧ (mainEntry w).target = w.target := by
  intro w h
  have he : (!truthyOpt w.env_line_number || !truthyOpt w.env_filepath) = true := by
    rcases h with h | h <;> rw [h] <;> simp [truthyOpt]
  rw [main_env_error w he]
  exact ⟨by simp, rfl, rfl⟩

/-- A concrete world for witnesses: every field populated with simple values. -/
def demoWorld : World := {
  env_line_number := some ['3'],
  env_filepath := some ['f'],
  env_first := some "Sam".data,
  env_full := none,
  config := some "/t".data,
  target := [['a'], ['b'], ['c'], ['d'], ['e']],
  rootPick := (1, []),
  templPick := RunResult.ok 0 ['p'],
  isdir := fun _ => false,
  isfile := fun _ => true,
  readFile := fun _ => "Hi [[TO=firstname]],".data,
  int_of := fun _ => 3 }

/-- C5 witness: with the line-number variable unset, the exit code is
non-zero and both files are untouched. -/
theorem c5_missing_env_witness :
    (mainEntry { demoWorld with env_line_number := none }).exitCode ≠ 0 ∧
    (mainEntry { demoWorld with env_line_number := none }).config =
      ({ demoWorld with env_line_number := none } : World).config ∧
    (mainEntry { demoWorld with env_line_number := none }).target =
      ({ demoWorld with env_line_number := none } : World).target :=
  c5_missing_env_fails_fast { demoWorld with env_line_number := none } (Or.inl rfl)

/-- C6: with the required environment present and a root resolved, any
non-success of the template picker (exception, non-zero exit, or output that
is not a file) makes `get_template` return absent rather than raise, leaves
the target file unchanged, and the process exits 0. -/
theorem c6_picker_failure_graceful :
    ∀ w : World,
      truthyOpt w.env_line_number = true → truthyOpt w.env_filepath = true →
      truthyOpt (resolve_root w).1 = true →
      (w.templPick = RunResult.exn ∨
        (∃ rc out, w.templPick = RunResult.ok rc out ∧
          (rc ≠ 0 ∨ w.isfile (stripList out) = false))) →
      get_template w.templPick w.isfile w.readFile = none ∧
      (mainEntry w).target = w.target ∧ (mainEntry w).exitCode = 0 := by
  intro w h1 h2 h3 h4
  have hg : get_template w.templPick w.isfile w.readFile = none := by
    rcases h4 with h | ⟨rc, out, heq, hbad⟩
    · rw [h]; rfl
    · rw [heq]
      simp only [get_template]
      rcases hbad with hb | hb
      · rw [if_neg hb]
      · by_cases hz : rc = 0
        · rw [if_pos hz, if_neg (by simp [hb])]
        · rw [if_neg hz]
  have he : (!truthyOpt w.env_line_number || !truthyOpt w.env_filepath) = false := by
    rw [h1, h2]; rfl
  refine ⟨hg, ?_, ?_⟩ <;> rw [main_no_template w he h3 hg]

/-- C6 witness: picker exiting with code 1 leaves everything untouched. -/
theorem c6_picker_failure_witness :
    (mainEntry { demoWorld with templPick := RunResult.ok 1 [] }).target =
      ({ demoWorld with templPick := RunResult.ok 1 [] } : World).target ∧
    (mainEntry { demoWorld with templPick := RunResult.ok 1 [] }).exitCode = 0 :=
  (c6_picker_failure_graceful { demoWorld with templPick := RunResult.ok 1 [] }
    rfl rfl (by decide) (Or.inr ⟨1, [], rfl, Or.inl (by decide)⟩)).2

/-- C9: `prompt_for_templates_root` persists (via `update_templates_root`)
exactly when the picker exits 0 and its stripped output is an existing
directory, returning that directory; in every other case it returns absent
with the config unchanged.  Moreover a whole run of `main` either leaves the
config unchanged or changed through exactly that success path (which is only
reached when the configured root did not resolve). -/
theorem c9_prompt_persistence :
    (∀ (pick : Int × Str) (isd : Str → Bool) (cfg : Option Str),
      ((prompt_for_templates_root pick isd cfg).1 = none →
        (prompt_for_templates_root pick isd cfg).2 = cfg) ∧
      (∀ d, (prompt_for_templates_root pick isd cfg).1 = some d →
        pick.1 = 0 ∧ d = stripList pick.2 ∧ isd d = true ∧
        (prompt_for_templates_root pick isd cfg).2 = update_templates_root d cfg) ∧
      (pick.1 = 0 → isd (stripList pick.2) = true →
        (prompt_for_templates_root pick isd cfg).1 = some (stripList pick.2))) ∧
    (∀ w : World, (mainEntry w).config = w.config ∨
      (truthyOpt (get_templates_root w.config) = false ∧ w.rootPick.1 = 0 ∧
        w.isdir (stripList w.rootPick.2) = true ∧
        (mainEntry w).config = update_templates_root (stripList w.rootPick.2) w.config)) := by
  constructor
  · intro pick isd cfg
    by_cases hz : pick.1 = 0
    · by_cases hd : isd (stripList pick.2) = true
      · have hp : prompt_for_templates_root pick isd cfg =
            (some (stripList pick.2), update_templates_root (stripList pick.2) cfg) := by
          unfold prompt_for_templates_root
          rw [if_pos hz, if_pos hd]
        rw [hp]
        refine ⟨fun h => absurd h (by simp), fun d hd2 => ?_, fun _ _ => rfl⟩
        obtain rfl := (Option.some.inj hd2).symm
        exact ⟨hz, rfl, hd, rfl⟩
      · have hp : prompt_for_templates_root pick isd cfg = (none, cfg) := by
          unfold prompt_for_templates_root
          rw [if_pos hz, if_neg hd]
        rw [hp]
        exact ⟨fun _ => rfl, fun d hd2 => absurd hd2 (by simp),
          fun _ h => absurd h hd⟩
    · have hp : prompt_for_templates_root pick isd cfg = (none, cfg) := by
        unfold prompt_for_templates_root
        rw [if_neg hz]
      rw [hp]
      exact ⟨fun _ => rfl, fun d hd2 => absurd hd2 (by simp), fun h _ => absurd h hz⟩
  · intro w
    cases he : (!truthyOpt w.env_line_number || !truthyOpt w.env_filepath) with
    | true =>
      left
      rw [main_env_error w he]
    | false =>
      have hc := main_config_after w he
      cases ht : truthyOpt (get_templates_root w.config) with
      | true =>
        left
        rw [hc]
        unfold resolve_root
        rw [ht]
        rfl
      | false =>
        have hrr : (resolve_root w).2 =
            (prompt_for_templates_root w.rootPick w.isdir w.config).2 := by
          unfold resolve_root
          rw [ht]
          rfl
        by_cases hz : w.rootPick.1 = 0
        · by_cases hd : w.isdir (stripList w.rootPick.2) = true
          · right
            refine ⟨rfl, hz, hd, ?_⟩
            rw [hc, hrr]
            unfold prompt_for_templates_root
            rw [if_pos hz, if_pos hd]
          · left
            rw [hc, hrr]
            unfold prompt_for_templates_root
            rw [if_pos hz, if_neg hd]
        · left
          rw [hc, hrr]
          unfold prompt_for_templates_root
          rw [if_neg hz]

/-- C9 witness: a successful pick of a real directory is returned stripped. -/
theorem c9_prompt_persistence_witness :
    (prompt_for_templates_root (0, " /d ".data) (fun s => s == "/d".data) none).1 =
      some (stripList " /d ".data) :=
  (c9_prompt_persistence.1 (0, " /d ".data) (fun s => s == "/d".data) none).2.2
    rfl (by decide)

/-- C1: the end-to-end scenario.  With the required environment present, line
number parsing to 3, the first-name variable holding "Sam", a resolved root,
and a selected template reading "Hi [[TO=firstname]],", a five-line target
becomes six lines: the first two unchanged, "Hi Sam," as the new third line,
and the former lines three to five shifted one place down. -/
theorem c1_end_to_end :
    ∀ (w : World) (l1 l2 l3 l4 l5 : Str),
      truthyOpt w.env_line_number = true →
      truthyOpt w.env_filepath = true →
      w.int_of (w.env_line_number.getD []) = 3 →
      w.env_first = some "Sam".data →
      truthyOpt (resolve_root w).1 = true →
      get_template w.templPick w.isfile w.readFile = some "Hi [[TO=firstname]],".data →
      w.target = [l1, l2, l3, l4, l5] →
      (mainEntry w).target = [l1, l2, "Hi Sam,".data, l3, l4, l5] ∧
      ((mainEntry w).target).length = 6 ∧ (mainEntry w).exitCode = 0 := by
  intro w l1 l2 l3 l4 l5 h1 h2 hln hfirst hroot htempl htarget
  have he : (!truthyOpt w.env_line_number || !truthyOpt w.env_filepath) = false := by
    rw [h1, h2]; rfl
  have hrepl : replace_tags "Sam".data (w.env_full.getD []) "Hi [[TO=firstname]],".data =
      "Hi Sam,".data := by
    unfold replace_tags
    have hpass1 : replaceAll firstnameTok "Sam".data "Hi [[TO=firstname]],".data =
        "Hi Sam,".data := by decide
    rw [hpass1]
    exact replaceAll_no_occ _ (by decide)
  have hins : insert_text_at_line [l1, l2, l3, l4, l5] 3 "Hi Sam,".data =
      [l1, l2, "Hi Sam,".data, l3, l4, l5] := by
    rw [insert_text_at_line]
    have hidx : ((max 0 ((3 : Int) - 1)).toNat) = 2 := by decide
    rw [hidx]
    rfl
  have htg : (mainEntry w).target = [l1, l2, "Hi Sam,".data, l3, l4, l5] := by
    rw [main_inserts w _ he hroot htempl]
    show insert_text_at_line w.target (w.int_of (w.env_line_number.getD []))
      (replace_tags (w.env_first.getD []) (w.env_full.getD [])
        "Hi [[TO=firstname]],".data) = [l1, l2, "Hi Sam,".data, l3, l4, l5]
    rw [htarget, hln, hfirst]
    show insert_text_at_line [l1, l2, l3, l4, l5] 3
      (replace_tags "Sam".data (w.env_full.getD []) "Hi [[TO=firstname]],".data) =
      [l1, l2, "Hi Sam,".data, l3, l4, l5]
    rw [hrepl, hins]
  refine ⟨htg, ?_, ?_⟩
  · rw [htg]; rfl
  · rw [main_inserts w _ he hroot htempl]

/-- C1 witness: the scenario run in a fully concrete world. -/
theorem c1_end_to_end_witness :
    (mainEntry demoWorld).target =
      [['a'], ['b'], "Hi Sam,".data, ['c'], ['d'], ['e']] ∧
    ((mainEntry demoWorld).target).length = 6 ∧ (mainEntry demoWorld).exitCode = 0 :=
  c1_end_to_end demoWorld ['a'] ['b'] ['c'] ['d'] ['e']
    rfl rfl rfl rfl (by decide) (by decide) rfl

section SimultaneousSpec

/-- Modelled from the specification words for the substitution claim: one
left-to-right scan over the input replacing each occurrence of either
recognised token by its value, never rescanning replacement text (the two
tokens cannot match at the same position, so the branch order is immaterial).
Fuelled worker; the fuel is one unit per input character. -/
def simulReplaceF (first full : Str) : Nat → Str → Str
  | _, [] => []
  | 0, s => s
  | fuel + 1, c :: cs =>
    if startsWithL firstnameTok (c :: cs) then
      first ++ simulReplaceF first full fuel ((c :: cs).drop firstnameTok.length)
    else if startsWithL fullnameTok (c :: cs) then
      full ++ simulReplaceF first full fuel ((c :: cs).drop fullnameTok.length)
    else
      c :: simulReplaceF first full fuel cs

/-- The simultaneous substitution of both recognised tokens, following the
specification text for `replace_tags`. -/
def simulReplace (first full s : Str) : Str :=
  simulReplaceF first full s.length s

theorem simulReplaceF_fuel (first full : Str) :
    ∀ f1 : Nat, ∀ f2 s, s.length ≤ f1 → s.length ≤ f2 →
      simulReplaceF first full f1 s = simulReplaceF first full f2 s := by
  intro f1
  induction f1 with
  | zero =>
    intro f2 s h1 _
    have : s = [] := List.eq_nil_of_length_eq_zero (Nat.le_zero.1 h1)
    subst this
    cases f2 <;> rfl
  | succ f ih =>
    intro f2 s h1 h2
    cases s with
    | nil => cases f2 <;> rfl
    | cons c cs =>
      cases f2 with
      | zero => simp at h2
      | succ f2p =>
        have hfl : 1 ≤ firstnameTok.length := by decide
        have hfl2 : 1 ≤ fullnameTok.length := by decide
        simp only [List.length_cons] at h1 h2
        simp only [simulReplaceF]
        by_cases hm1 : startsWithL firstnameTok (c :: cs) = true
        · rw [if_pos hm1, if_pos hm1]
          have ha : ((c :: cs).drop firstnameTok.length).length ≤ f := by
            simp only [List.length_drop, List.length_cons]; omega
          have hb : ((c :: cs).drop firstnameTok.length).length ≤ f2p := by
            simp only [List.length_drop, List.length_cons]; omega
          rw [ih f2p _ ha hb]
        · rw [if_neg hm1, if_neg hm1]
          by_cases hm2 : startsWithL fullnameTok (c :: cs) = true
          · rw [if_pos hm2, if_pos hm2]
            have ha : ((c :: cs).drop fullnameTok.length).length ≤ f := by
              simp only [List.length_drop, List.length_cons]; omega
            have hb : ((c :: cs).drop fullnameTok.length).length ≤ f2p := by
              simp only [List.length_drop, List.length_cons]; omega
            rw [ih f2p _ ha hb]
          · rw [if_neg hm2, if_neg hm2]
            rw [ih f2p cs (by omega) (by omega)]

theorem simul_first {first full s : Str} (h : startsWithL firstnameTok s = true) :
    simulReplace first full s =
      first ++ simulReplace first full (s.drop firstnameTok.length) := by
  cases s with
  | nil =>
    have := length_le_of_startsWithL h
    simp at this
    exact absurd this (by decide)
  | cons c cs =>
    show simulReplaceF first full (c :: cs).length (c :: cs) = _
    simp only [List.length_cons, simulReplaceF, if_pos h]
    congr 1
    apply simulReplaceF_fuel
    · have : 1 ≤ firstnameTok.length := by decide
      simp only [List.length_drop, List.length_cons]
      omega
    · exact Nat.le_refl _

theorem simul_full {first full s : Str} (h1 : startsWithL firstnameTok s = false)
    (h2 : startsWithL fullnameTok s = true) :
    simulReplace first full s =
      full ++ simulReplace first full (s.drop fullnameTok.length) := by
  cases s with
  | nil =>
    have := length_le_of_startsWithL h2
    simp at this
    exact absurd this (by decide)
  | cons c cs =>
    show simulReplaceF first full (c :: cs).length (c :: cs) = _
    simp only [List.length_cons, simulReplaceF, h1, if_pos h2]
    rw [if_neg (by simp)]
    congr 1
    apply simulReplaceF_fuel
    · have : 1 ≤ fullnameTok.length := by decide
      simp only [List.length_drop, List.length_cons]
      omega
    · exact Nat.le_refl _

theorem simul_nomatch {first full : Str} {c : Char} {cs : Str}
    (h1 : startsWithL firstnameTok (c :: cs) = false)
    (h2 : startsWithL fullnameTok (c :: cs) = false) :
    simulReplace first full (c :: cs) = c :: simulReplace first full cs := by
  show simulReplaceF first full (c :: cs).length (c :: cs) = _
  simp only [List.length_cons, simulReplaceF, h1, h2]
  rw [if_neg (by simp), if_neg (by simp)]
  rfl

/-- Membership of a suffix, through reversal. -/
theorem suffix_iff_rev (p s : Str) :
    startsWithL p.reverse s.reverse = true ↔ ∃ t, s = t ++ p := by
  rw [startsWithL_iff]
  constructor
  · rintro ⟨t, ht⟩
    refine ⟨t.reverse, ?_⟩
    have h2 := congrArg List.reverse ht
    simpa [List.reverse_append] using h2
  · rintro ⟨t, rfl⟩
    exact ⟨t.reverse, by simp [List.reverse_append]⟩

/-- Interference predicate for the amended substitution claim: the
first-name value can take part in an occurrence of `[[TO=fullname]]` in the
output of the first replacement pass.  That happens when the full-name token
occurs inside the value, when the value is a fragment of the token (the empty
value included), or when an end of the value overlaps an end of the token. -/
def tokenInterference (first : Str) : Bool :=
  occursIn fullnameTok first ||
  occursIn first fullnameTok ||
  (List.range fullnameTok.length).any
    (fun i => decide (0 < i) && startsWithL (fullnameTok.drop i) first) ||
  (List.range fullnameTok.length).any
    (fun i => decide (0 < i) && startsWithL (fullnameTok.take i).reverse first.reverse)

theorem any_range_false {n : Nat} {f : Nat → Bool}
    (h : (List.range n).any f = false) : ∀ i, i < n → f i = false := by
  intro i hi
  by_cases hx : f i = true
  · exfalso
    have h2 : (List.range n).any f = true :=
      List.any_eq_true.mpr ⟨i, List.mem_range.mpr hi, hx⟩
    rw [h] at h2
    exact Bool.noConfusion h2
  · simpa using hx

theorem tokenInterference_parts {first : Str} (h : tokenInterference first = false) :
    occursIn fullnameTok first = false ∧
    occursIn first fullnameTok = false ∧
    (∀ i, 0 < i → i < fullnameTok.length →
      startsWithL (fullnameTok.drop i) first = false) ∧
    (∀ i, 0 < i → i < fullnameTok.length →
      startsWithL (fullnameTok.take i).reverse first.reverse = false) := by
  have hsplit : ∀ a b : Bool, (a || b) = false → a = false ∧ b = false := by decide
  have h0 : (((occursIn fullnameTok first ||
      occursIn first fullnameTok) ||
        (List.range fullnameTok.length).any
          (fun i => decide (0 < i) && startsWithL (fullnameTok.drop i) first)) ||
        (List.range fullnameTok.length).any
          (fun i => decide (0 < i) &&
            startsWithL (fullnameTok.take i).reverse first.reverse)) = false := h
  obtain ⟨hr1, h4⟩ := hsplit _ _ h0
  obtain ⟨hr2, h3⟩ := hsplit _ _ hr1
  obtain ⟨h1, h2⟩ := hsplit _ _ hr2
  refine ⟨h1, h2, fun i hi0 hil => ?_, fun i hi0 hil => ?_⟩
  · have h5 := any_range_false h3 i hil
    rw [decide_eq_true hi0, Bool.true_and] at h5
    exact h5
  · have h5 := any_range_false h4 i hil
    rw [decide_eq_true hi0, Bool.true_and] at h5
    exact h5

end SimultaneousSpec

section SequentialVsSimultaneous

/-- Key lemma for the amended substitution claim: when the first-name value
cannot interfere with the full-name token, every proper suffix of
`[[TO=fullname]]` that starts the output of the firstname pass already
started the input.  (New starts would need the value to contain, complete, or
sit inside the token.) -/
theorem no_new_suffix_match {first : Str}
    (hN2 : occursIn first fullnameTok = false)
    (hN3 : ∀ i, 0 < i → i < fullnameTok.length →
      startsWithL (fullnameTok.drop i) first = false) :
    ∀ text s p, fullnameTok = p ++ s → p ≠ [] → s ≠ [] →
      startsWithL s (replaceAll firstnameTok first text) = true →
      startsWithL s text = true := by
  intro text
  induction text with
  | nil =>
    intro s p hps hp hs hsw
    rw [replaceAll_nil] at hsw
    cases s with
    | nil => exact absurd rfl hs
    | cons a as => simp [startsWithL] at hsw
  | cons c cs ih =>
    intro s p hps hp hs hsw
    by_cases hm : startsWithL firstnameTok (c :: cs) = true
    · rw [replaceAll_match first (by decide) hm] at hsw
      by_cases hls : s.length ≤ first.length
      · exfalso
        have hsfirst : startsWithL s first = true := startsWithL_long hsw hls
        have hdrop : fullnameTok.drop p.length = s := by
          rw [hps, List.drop_left]
        have hp0 : 0 < p.length := by
          cases p with
          | nil => exact absurd rfl hp
          | cons _ _ => simp
        have hplt : p.length < fullnameTok.length := by
          have hlen := congrArg List.length hps
          simp only [List.length_append] at hlen
          have hs0 : 0 < s.length := by
            cases s with
            | nil => exact absurd rfl hs
            | cons _ _ => simp
          omega
        have hcontra := hN3 p.length hp0 hplt
        rw [hdrop, hsfirst] at hcontra
        exact Bool.noConfusion hcontra
      · exfalso
        have hls2 : first.length ≤ s.length := Nat.le_of_not_le hls
        have hsw2 : startsWithL first s = true := startsWithL_short hsw hls2
        obtain ⟨s2, hs2⟩ := (startsWithL_iff first s).1 hsw2
        have hocc : occursIn first fullnameTok = true :=
          (occursIn_iff first fullnameTok).2 ⟨p, s2, by rw [hps, hs2, List.append_assoc]⟩
        rw [hN2] at hocc
        exact Bool.noConfusion hocc
    · have hmf : startsWithL firstnameTok (c :: cs) = false := by
        cases hq : startsWithL firstnameTok (c :: cs) with
        | false => rfl
        | true => exact absurd hq hm
      rw [replaceAll_nomatch first hmf] at hsw
      cases s with
      | nil => exact absurd rfl hs
      | cons a as =>
        simp only [startsWithL, Bool.and_eq_true, beq_iff_eq] at hsw
        obtain ⟨rfl, hsw2⟩ := hsw
        cases as with
        | nil => simp [startsWithL]
        | cons b bs =>
          have hfull : fullnameTok = (p ++ [a]) ++ (b :: bs) := by
            rw [hps]
            simp
          have hrec := ih (b :: bs) (p ++ [a]) hfull (by simp) (by simp) hsw2
          simp [startsWithL, hrec]

/-- The firstname pass copies a full-name token occurrence verbatim: no
occurrence of the (longer) firstname token can start inside it. -/
theorem pass1_keeps_fulltok (first R : Str) :
    replaceAll firstnameTok first (fullnameTok ++ R) =
      fullnameTok ++ replaceAll firstnameTok first R := by
  apply replaceAll_append_clean
  intro i hi
  cases h : startsWithL firstnameTok (fullnameTok.drop i ++ R) with
  | false => rfl
  | true =>
    exfalso
    have hlen : (fullnameTok.drop i).length ≤ firstnameTok.length := by
      simp only [List.length_drop]
      have h1 : fullnameTok.length = 15 := by decide
      have h2 : firstnameTok.length = 16 := by decide
      omega
    have h3 := startsWithL_short h hlen
    have hfact : ∀ j, j < fullnameTok.length →
        startsWithL (fullnameTok.drop j) firstnameTok = false := by decide
    rw [hfact i hi] at h3
    exact Bool.noConfusion h3

/-- The fullname pass copies a spliced-in non-interfering first-name value
verbatim: no full-name token occurrence can start inside it. -/
theorem pass2_keeps_first {first : Str} (full R : Str)
    (hN1 : occursIn fullnameTok first = false)
    (hN4 : ∀ i, 0 < i → i < fullnameTok.length →
      startsWithL (fullnameTok.take i).reverse first.reverse = false) :
    replaceAll fullnameTok full (first ++ R) =
      first ++ replaceAll fullnameTok full R := by
  apply replaceAll_append_clean
  intro i hi
  cases h : startsWithL fullnameTok (first.drop i ++ R) with
  | false => rfl
  | true =>
    exfalso
    by_cases hlen : fullnameTok.length ≤ (first.drop i).length
    · have h2 := startsWithL_long h hlen
      have h3 := occursIn_of_drop h2
      rw [hN1] at h3
      exact Bool.noConfusion h3
    · have hlt : (first.drop i).length < fullnameTok.length := Nat.lt_of_not_le hlen
      have h2 := startsWithL_short h (Nat.le_of_lt hlt)
      obtain ⟨t, ht⟩ := (startsWithL_iff (first.drop i) fullnameTok).1 h2
      have htake : fullnameTok.take (first.drop i).length = first.drop i := by
        rw [ht]
        exact List.take_left _ _
      have hk0 : 0 < (first.drop i).length := by
        simp only [List.length_drop]
        omega
      have hsuffix : startsWithL (fullnameTok.take (first.drop i).length).reverse
          first.reverse = true := by
        rw [htake]
        exact (suffix_iff_rev (first.drop i) first).2
          ⟨first.take i, (List.take_append_drop i first).symm⟩
      rw [hN4 (first.drop i).length hk0 hlt] at hsuffix
      exact Bool.noConfusion hsuffix

end SequentialVsSimultaneous

/-- Main lemma for the amended substitution claim: without interference the
two sequential passes of `replace_tags` compute the simultaneous
substitution.  Strong induction on the input length. -/
theorem seq_eq_simul_aux {first : Str} (full : Str)
    (hN1 : occursIn fullnameTok first = false)
    (hN2 : occursIn first fullnameTok = false)
    (hN3 : ∀ i, 0 < i → i < fullnameTok.length →
      startsWithL (fullnameTok.drop i) first = false)
    (hN4 : ∀ i, 0 < i → i < fullnameTok.length →
      startsWithL (fullnameTok.take i).reverse first.reverse = false) :
    ∀ n text, text.length ≤ n →
      replaceAll fullnameTok full (replaceAll firstnameTok first text) =
        simulReplace first full text := by
  intro n
  induction n with
  | zero =>
    intro text h
    have : text = [] := List.eq_nil_of_length_eq_zero (Nat.le_zero.1 h)
    subst this
    rfl
  | succ m ih =>
    intro text hlen
    cases text with
    | nil => rfl
    | cons c cs =>
      simp only [List.length_cons] at hlen
      by_cases hm1 : startsWithL firstnameTok (c :: cs) = true
      · rw [replaceAll_match first (by decide) hm1,
          pass2_keeps_first full _ hN1 hN4, simul_first hm1]
        congr 1
        apply ih
        have h16 : 1 ≤ firstnameTok.length := by decide
        simp only [List.length_drop, List.length_cons]
        omega
      · have hm1f : startsWithL firstnameTok (c :: cs) = false := by
          cases hq : startsWithL firstnameTok (c :: cs) with
          | false => rfl
          | true => exact absurd hq hm1
        by_cases hm2 : startsWithL fullnameTok (c :: cs) = true
        · obtain ⟨rest, hrest⟩ := (startsWithL_iff fullnameTok (c :: cs)).1 hm2
          rw [hrest, pass1_keeps_fulltok,
            replaceAll_match full (by decide) (startsWithL_self_append _ _),
            List.drop_left, ← hrest, simul_full hm1f hm2, hrest, List.drop_left]
          congr 1
          apply ih
          have hlen2 := congrArg List.length hrest
          simp only [List.length_cons, List.length_append] at hlen2
          have h15 : fullnameTok.length = 15 := by decide
          omega
        · have hm2f : startsWithL fullnameTok (c :: cs) = false := by
            cases hq : startsWithL fullnameTok (c :: cs) with
            | false => rfl
            | true => exact absurd hq hm2
          rw [replaceAll_nomatch first hm1f]
          have hnom : startsWithL fullnameTok
              (c :: replaceAll firstnameTok first cs) = false := by
            cases hx : startsWithL fullnameTok (c :: replaceAll firstnameTok first cs) with
            | false => rfl
            | true =>
              exfalso
              cases hq : fullnameTok with
              | nil =>
                have : fullnameTok.length = 15 := by decide
                rw [hq] at this
                simp at this
              | cons f0 frest =>
                rw [hq] at hx
                simp only [startsWithL, Bool.and_eq_true, beq_iff_eq] at hx
                obtain ⟨rfl, hx2⟩ := hx
                have hfrne : frest ≠ [] := by
                  have hL : fullnameTok.length = 15 := by decide
                  rw [hq] at hL
                  simp only [List.length_cons] at hL
                  intro hh
                  rw [hh] at hL
                  simp at hL
                have hQ := no_new_suffix_match hN2 hN3 cs frest [f0]
                  (by rw [hq]; rfl) (by simp) hfrne hx2
                have hfull : startsWithL fullnameTok (f0 :: cs) = true := by
                  rw [hq]
                  simp [startsWithL, hQ]
                rw [hfull] at hm2f
                exact Bool.noConfusion hm2f
          rw [replaceAll_nomatch full hnom, simul_nomatch hm1f hm2f]
          congr 1
          exact ih cs (by omega)

/-- C3: the universally quantified simultaneous-substitution claim fails on the
code, which substitutes sequentially (firstname pass, then fullname pass): a
first-name value that itself reads `[[TO=fullname]]` is substituted again by
the second pass instead of being left as the first token's replacement. -/
theorem c3_substitution_counterexample :
    replace_tags fullnameTok ['X'] firstnameTok = ['X'] ∧
    simulReplace fullnameTok ['X'] firstnameTok = fullnameTok ∧
    replace_tags fullnameTok ['X'] firstnameTok ≠
      simulReplace fullnameTok ['X'] firstnameTok := by
  refine ⟨by decide, by decide, by decide⟩

/-- C3 (amended): for every input text and both environment values,
substitution replaces every occurrence of each recognised token with its
value and leaves all other text (unrecognised bracketed tags included)
unchanged — that is, it equals the simultaneous substitution — provided the
first-name value cannot take part in an occurrence of `[[TO=fullname]]`
(`tokenInterference`): it must not contain that token, be a fragment of it
(the empty string is one), or overlap one of its ends.  Ordinary name values
satisfy the proviso; without it the second pass can consume token occurrences
the first pass created. -/
theorem c3_substitution_simultaneous :
    ∀ (text first full : Str), tokenInterference first = false →
      replace_tags first full text = simulReplace first full text := by
  intro text first full hT
  obtain ⟨hN1, hN2, hN3, hN4⟩ := tokenInterference_parts hT
  exact seq_eq_simul_aux full hN1 hN2 hN3 hN4 text.length text (Nat.le_refl _)

/-- C3 witness: a text holding both tokens and an unrecognised tag,
substituted with the ordinary values "Sam" and "Sam Ple". -/
theorem c3_substitution_witness :
    tokenInterference "Sam".data = false ∧
    replace_tags "Sam".data "Sam Ple".data
        "Hi [[TO=firstname]] aka [[TO=fullname]] [[TO=x]]".data =
      simulReplace "Sam".data "Sam Ple".data
        "Hi [[TO=firstname]] aka [[TO=fullname]] [[TO=x]]".data :=
  ⟨by decide, c3_substitution_simultaneous
    "Hi [[TO=firstname]] aka [[TO=fullname]] [[TO=x]]".data
    "Sam".data "Sam Ple".data (by decide)⟩
